import Mathlib

/-!
# Verification of the Wavebreaker server core

A shallow embedding, in Lean 4, of the parts of the Wavebreaker server
(a replacement for the defunct Audiosurf online services) that the
specification's claims are about:

* `src/util/game_types.rs` — leagues, characters, the x-separated
  number-list codec (`split_x_separated` / `join_x_separated`);
* `src/util/modifiers.rs` — the `[as-...]` title-modifier parser
  (`modifiers_from_title` / `remove_modifiers_from_title`);
* `src/models/scores.rs` — `Score::calc_skill_points` and
  `NewScore::create_or_update` (score submission and the Redis
  leaderboard effects);
* `src/models/songs.rs` — `NewSong::find_or_create` (song resolver);
* `src/game/gameplay.rs` — the MBID lookup of `fetch_song_id` and the
  dethrone (`beatscore`) section of `send_ride`;
* `src/game/helpers.rs` — `ticket_auth` (Steam ticket cache);
* `src/game/user.rs` — `steam_sync` (friend sync status string).

Database tables are embedded as lists of row structures, Redis as
explicit effect lists or key-value association lists, and timestamps as
integer nanosecond counts (`time::OffsetDateTime` has sub-second
precision; `Duration::whole_seconds` truncates toward zero, which is
`Int.tdiv` by `10^9`).  Rust `i32` values are embedded as `Int`; where
overflow or numeric range matters it is stated explicitly.
`Score::calc_skill_points` performs `f64` arithmetic on `i32` inputs;
it is embedded with exact rational arithmetic (written over integers),
which at the magnitudes discussed in the claims agrees with the double
computation.
-/

namespace Wavebreaker

/-! ## `src/util/game_types.rs` -/

/-- `League` — the three skill levels (`Casual`, `Pro`, `Elite`),
`#[repr(i16)]` with values 0, 1, 2. -/
inductive League where
  | Casual
  | Pro
  | Elite
deriving DecidableEq, Repr

/-- The discriminant of a `League` (`league as i16` / `as u32`). -/
def League.val : League → Int
  | .Casual => 0
  | .Pro => 1
  | .Elite => 2

/-- `Character` — a vehicle, `#[repr(i16)]` with the explicit values of
the source enum. -/
inductive Character where
  | PointmanPro
  | DoubleVisionPro
  | Vegas
  | Pusher
  | Eraser
  | DoubleVision
  | PointmanElite
  | MonoPro
  | EraserElite
  | NinjaMono
  | DoubleVisionElite
  | Pointman
  | PusherElite
  | Mono
deriving DecidableEq, Repr

/-- The `i16` discriminant of a `Character` (values 5–8 are unused in
the source enum). -/
def Character.val : Character → Int
  | .PointmanPro => 0
  | .DoubleVisionPro => 1
  | .Vegas => 2
  | .Pusher => 3
  | .Eraser => 4
  | .DoubleVision => 9
  | .PointmanElite => 10
  | .MonoPro => 11
  | .EraserElite => 12
  | .NinjaMono => 13
  | .DoubleVisionElite => 14
  | .Pointman => 15
  | .PusherElite => 16
  | .Mono => 17

/-! ### Decimal rendering and parsing of `i32` values

`join_x_separated` renders each element with `ToString` (for `i32`:
minus sign for negatives, then base-10 digits) and `split_x_separated`
parses each piece with `str::parse::<i32>` (optional `+`/`-` sign,
then base-10 digits, rejecting the empty string and values outside
`i32` range).  Strings are embedded as `List Char`. -/

/-- The character of the decimal digit `d` (for `d < 10`). -/
def digitChar (d : Nat) : Char := Char.ofNat (48 + d)

/-- The decimal digits of `n`, most significant first, by repeated
division; `fuel`-indexed for structural termination (any
`fuel ≥ n` is exhaustive).  Renders `0` as the empty list. -/
def natToCharsAux : Nat → Nat → List Char
  | 0, _ => []
  | fuel + 1, n =>
    if n = 0 then []
    else natToCharsAux fuel (n / 10) ++ [digitChar (n % 10)]

/-- The decimal rendering of a natural number (`"0"` for zero). -/
def natToChars (n : Nat) : List Char :=
  if n = 0 then ['0'] else natToCharsAux n n

/-- The `i32` `Display` rendering: minus sign for negatives, then the
decimal digits of the absolute value. -/
def intToChars (n : Int) : List Char :=
  if n < 0 then '-' :: natToChars n.natAbs else natToChars n.toNat

/-- The numeric value of a decimal digit character, `none` for any
other character. -/
def charToDigit (c : Char) : Option Nat :=
  if 48 ≤ c.toNat ∧ c.toNat ≤ 57 then some (c.toNat - 48) else none

/-- Digit-by-digit accumulation of a decimal value, starting from
`acc`; fails on a non-digit character. -/
def parseNatFrom (acc : Nat) : List Char → Option Nat
  | [] => some acc
  | c :: rest =>
    match charToDigit c with
    | none => none
    | some d => parseNatFrom (acc * 10 + d) rest

/-- Parse a non-empty run of decimal digits. -/
def parseNat (s : List Char) : Option Nat :=
  match s with
  | [] => none
  | _ => parseNatFrom 0 s

/-- `str::parse::<i32>`: an optional `+` or `-` sign, then a non-empty
digit run, with the `i32` range check (`-2^31 ≤ v < 2^31`). -/
def parseI32 (s : List Char) : Option Int :=
  match s with
  | [] => none
  | c :: rest =>
    if c = '-' then
      (parseNat rest).bind fun m =>
        if m ≤ 2 ^ 31 then some (-(m : Int)) else none
    else if c = '+' then
      (parseNat rest).bind fun m =>
        if m < 2 ^ 31 then some (m : Int) else none
    else
      (parseNat (c :: rest)).bind fun m =>
        if m < 2 ^ 31 then some (m : Int) else none

/-- Rust `str::split(char)`: splitting the empty string yields one
empty piece; every separator occurrence starts a new piece. -/
def splitOnChar (c : Char) : List Char → List (List Char)
  | [] => [[]]
  | a :: rest =>
    if a = c then [] :: splitOnChar c rest
    else
      match splitOnChar c rest with
      | [] => [[a]]
      | h :: t => (a :: h) :: t

/-- Rust `[String]::join(sep)`: the pieces interleaved with the
separator (no trailing separator). -/
def joinWith (sep : List Char) : List (List Char) → List Char
  | [] => []
  | [p] => p
  | p :: q :: rest => p ++ sep ++ joinWith sep (q :: rest)

/-- `split_x_separated` (src/util/game_types.rs:74-87): empty input is
`Ok(vec![])`; otherwise one trailing `x` is stripped if present, the
string is split on `x`, and every piece is parsed as an `i32`. -/
def split_x_separated (s : List Char) : Option (List Int) :=
  if s = [] then some []
  else
    (splitOnChar 'x'
      (if s.getLast? = some 'x' then s.dropLast else s)).mapM parseI32

/-- `join_x_separated` (src/util/game_types.rs:89-100): render each
element, join with `x`, then push one more `x`. -/
def join_x_separated (v : List Int) : List Char :=
  joinWith ['x'] (v.map intToChars) ++ ['x']

/-! ## `src/util/modifiers.rs`

The two functions are built on the regexes
`(?:\[as-[a-zA-Z0-9]+\]\s*)+$` (the whole trailing tag region; `find`
returns the leftmost position from which the pattern matches through to
the end) and `\[as-([a-zA-Z0-9]+)\]` (one tag, capturing its content).
The embedding parses the anchored region grammar directly: a region is
one or more tags, each `[as-` + a non-empty alphanumeric run + `]`,
each followed by optional whitespace, reaching the end of the string.
`find` is embedded as a scan for the leftmost suffix that is a region,
and the `captures_iter` extraction as the in-order list of the region's
tag contents. -/

/-- The regex class `[a-zA-Z0-9]` (ASCII only). -/
def isAsciiAlnum (c : Char) : Bool :=
  (48 ≤ c.toNat && c.toNat ≤ 57) ||
  (65 ≤ c.toNat && c.toNat ≤ 90) ||
  (97 ≤ c.toNat && c.toNat ≤ 122)

/-- Parse one `[as-<alnum+>]` tag at the front of the string, returning
its content and the remainder: the literal `[as-`, a non-empty
alphanumeric run, then the literal `]`. -/
def parseTag (s : List Char) : Option (List Char × List Char) :=
  match s with
  | c1 :: c2 :: c3 :: c4 :: rest =>
    if c1 = '[' ∧ c2 = 'a' ∧ c3 = 's' ∧ c4 = '-' then
      if rest.takeWhile isAsciiAlnum = [] then none
      else
        match rest.dropWhile isAsciiAlnum with
        | c :: r => if c = ']' then some (rest.takeWhile isAsciiAlnum, r) else none
        | [] => none
    else none
  | _ => none

/-- Parse `(tag \s*)+` through to the end of the string, returning the
tag contents in order; `fuel`-indexed for structural termination (any
`fuel ≥ s.length` is exhaustive, since each tag consumes at least six
characters). -/
def regionFromAux : Nat → List Char → Option (List (List Char))
  | 0, _ => none
  | fuel + 1, s =>
    (parseTag s).bind fun p =>
      if p.2.dropWhile Char.isWhitespace = [] then some [p.1]
      else (regionFromAux fuel (p.2.dropWhile Char.isWhitespace)).map (p.1 :: ·)

/-- Whether the whole string is a trailing-tag region
(`(?:\[as-[a-zA-Z0-9]+\]\s*)+` anchored at both ends), and if so the
list of tag contents. -/
def regionFrom (s : List Char) : Option (List (List Char)) :=
  regionFromAux s.length s

/-- Regex `find` for the anchored tag-region pattern: the leftmost
position whose suffix is a region.  Returns the text before that
position together with the region's tag contents. -/
def find_region : List Char → Option (List Char × List (List Char))
  | [] => none
  | c :: rest =>
    match regionFrom (c :: rest) with
    | some tags => some ([], tags)
    | none => (find_region rest).map fun pa => (c :: pa.1, pa.2)

/-- `str::trim_end`: remove trailing whitespace. -/
def trimEnd (s : List Char) : List Char :=
  (s.reverse.dropWhile Char.isWhitespace).reverse

/-- `modifiers_from_title` (src/util/modifiers.rs:8-21): the contents
of the trailing modifier tags, in order; empty if the title has no
trailing tag region. -/
def modifiers_from_title (title : List Char) : List (List Char) :=
  match find_region title with
  | some (_, tags) => tags
  | none => []

/-- `remove_modifiers_from_title` (src/util/modifiers.rs:26-33): the
title up to the start of the trailing tag region, with trailing
whitespace trimmed; the title unchanged if there is no region. -/
def remove_modifiers_from_title (title : List Char) : List Char :=
  match find_region title with
  | some (front, _) => trimEnd front
  | none => title

/-! ## `src/models/scores.rs` -/

/-- A row of the `scores` table (`Score`).  `submitted_at` is the
timestamp in integer nanoseconds since the epoch. -/
structure Score where
  id : Int
  song_id : Int
  player_id : Int
  league : League
  submitted_at : Int
  play_count : Int
  score : Int
  track_shape : List Int
  xstats : List Int
  density : Int
  vehicle : Character
  feats : List String
  song_length : Int
  gold_threshold : Int
  iss : Int
  isj : Int
deriving DecidableEq, Repr

/-- `round(num/den)` for `den > 0`, ties rounded half away from zero
(`f64::round` semantics on exact values); written with Euclidean/floor
integer division, `⌊num/den + 1/2⌋ = (2*num + den) / (2*den)`. -/
def roundHalfAway (num den : Int) : Int :=
  if 0 ≤ num then (2 * num + den) / (2 * den)
  else -((2 * (-num) + den) / (2 * den))

/-- `Score::calc_skill_points` (src/models/scores.rs:127-131):
`((score / gold_threshold) * ((league + 1) * 100)).round()`.  The
source computes in `f64`; the embedding uses exact rational arithmetic,
`(score / gold) * m = (score * m) / gold`, rounded half away from
zero. -/
def Score.calc_skill_points (s : Score) : Int :=
  roundHalfAway (s.score * ((s.league.val + 1) * 100)) s.gold_threshold

/-- The validated fields of a score submission (`NewScore`,
src/models/scores.rs:259-275). -/
structure NewScore where
  player_id : Int
  song_id : Int
  league : League
  score : Int
  track_shape : List Int
  xstats : List Int
  density : Int
  vehicle : Character
  feats : List String
  song_length : Int
  gold_threshold : Int
  iss : Int
  isj : Int
deriving DecidableEq, Repr

/-- One externally visible effect issued by the submission engine, in
issue order: a Redis `ZINCRBY leaderboard delta member`, the SQL
`UPDATE` of the `(player_id, song_id, league)` score row, or the SQL
`INSERT` of a fresh score row. -/
inductive Effect where
  | zincrby (member : Int) (delta : Int)
  | updateRow (row : Score)
  | insertRow (row : Score)
deriving DecidableEq, Repr

/-- Whether a stored row belongs to the submission's
`(player_id, song_id, league)` key. -/
def NewScore.keyMatches (ns : NewScore) (r : Score) : Bool :=
  r.player_id = ns.player_id && r.song_id = ns.song_id && r.league = ns.league

/-- The row produced by the `UPDATE ... SET` of `create_or_update`
(src/models/scores.rs:363-383): every submitted field replaces the old
one, `play_count` is incremented, `submitted_at` set to now. -/
def NewScore.updatedRow (ns : NewScore) (old : Score) (now : Int) : Score :=
  { old with
    score := ns.score
    track_shape := ns.track_shape
    xstats := ns.xstats
    density := ns.density
    vehicle := ns.vehicle
    feats := ns.feats
    song_length := ns.song_length
    gold_threshold := ns.gold_threshold
    iss := ns.iss
    isj := ns.isj
    play_count := old.play_count + 1
    submitted_at := now }

/-- The row produced by the `INSERT` of `create_or_update`
(src/models/scores.rs:396-400); `id` is assigned by the database and
`play_count`/`submitted_at` take their column defaults (1 and now). -/
def NewScore.insertedRow (ns : NewScore) (now newId : Int) : Score :=
  { id := newId
    song_id := ns.song_id
    player_id := ns.player_id
    league := ns.league
    submitted_at := now
    play_count := 1
    score := ns.score
    track_shape := ns.track_shape
    xstats := ns.xstats
    density := ns.density
    vehicle := ns.vehicle
    feats := ns.feats
    song_length := ns.song_length
    gold_threshold := ns.gold_threshold
    iss := ns.iss
    isj := ns.isj }

/-- `NewScore::create_or_update` (src/models/scores.rs:340-410) over a
snapshot `rows` of the `scores` table: returns the resulting `Score`
together with the list of effects issued, in order.

* An existing `(player_id, song_id, league)` row with
  `existing.score < self.score`: `ZINCRBY` of minus the old skill
  points, then the row `UPDATE`, then `ZINCRBY` of the new skill
  points.
* An existing row otherwise: the existing row is returned and nothing
  is issued.
* No existing row: the `INSERT`, then `ZINCRBY` of the new skill
  points. -/
def NewScore.create_or_update (ns : NewScore) (rows : List Score)
    (now newId : Int) : Score × List Effect :=
  match rows.find? ns.keyMatches with
  | some existing =>
    if existing.score < ns.score then
      let updated := ns.updatedRow existing now
      (updated,
        [.zincrby existing.player_id (0 - existing.calc_skill_points),
         .updateRow updated,
         .zincrby updated.player_id updated.calc_skill_points])
    else (existing, [])
  | none =>
    let row := ns.insertedRow now newId
    (row, [.insertRow row, .zincrby row.player_id row.calc_skill_points])

/-- The persisted state the submission engine acts on: the `scores`
table and the Redis `leaderboard` sorted set (member ↦ score). -/
structure EngineState where
  rows : List Score
  lb : Int → Int

/-- Apply one effect to the persisted state.  `updateRow` replaces
every row of the updated row's `(player_id, song_id, league)` key, as
the SQL `UPDATE ... WHERE` does. -/
def applyEffect (st : EngineState) : Effect → EngineState
  | .zincrby member delta =>
    { st with lb := fun p => if p = member then st.lb p + delta else st.lb p }
  | .updateRow row =>
    { st with
      rows := st.rows.map fun r =>
        if r.player_id = row.player_id && r.song_id = row.song_id &&
            r.league = row.league then row else r }
  | .insertRow row => { st with rows := st.rows ++ [row] }

/-- Apply a list of effects in order. -/
def applyEffects (st : EngineState) (effs : List Effect) : EngineState :=
  effs.foldl applyEffect st

/-- The skill-point sum a player's stored scores are worth — what the
player's leaderboard entry is meant to hold. -/
def playerSkillSum (rows : List Score) (p : Int) : Int :=
  ((rows.filter fun r => r.player_id = p).map Score.calc_skill_points).sum

/-! ## `src/models/songs.rs` and the resolver queries of
`src/game/gameplay.rs` -/

/-- A row of the `songs` table. -/
structure Song where
  id : Int
  title : String
  artist : String
  modifiers : Option (List String)
deriving DecidableEq, Repr

/-- The columns of `extra_song_info` the resolver touches. -/
structure ExtraSongInfo where
  mbid : Option String
  musicbrainz_title : Option String
  musicbrainz_artist : Option String
  aliases_title : Option (List String)
  aliases_artist : Option (List String)
deriving DecidableEq, Repr

/-- A row of `songs LEFT JOIN extra_song_info`; the resolver's queries
run over these.  The list order is the order the store returns rows in
(none of the resolver queries has an `ORDER BY`). -/
structure SongRow where
  song : Song
  extra : Option ExtraSongInfo
deriving DecidableEq, Repr

/-- SQL `lower()` on a nullable text column (`NULL` stays `NULL`). -/
def lowerOpt (s : Option String) : Option String :=
  s.map fun t => t.map Char.toLower

/-- The song-side inputs of `NewSong` (title already stripped of
modifiers by the caller). -/
structure NewSong where
  title : String
  artist : String
  modifiers : Option (List String)
deriving DecidableEq, Repr

/-- The title predicate of `NewSong::find_or_create`
(src/models/songs.rs:323-325): `songs.title = title` OR
`lower(extra_song_info.musicbrainz_title) = title` OR
`extra_song_info.aliases_title @> ARRAY[title]` (every disjunct is
`false` when its column is `NULL`, as in SQL). -/
def titleMatches (title : String) (r : SongRow) : Bool :=
  r.song.title = title ||
  (r.extra.bind fun e => lowerOpt e.musicbrainz_title) = some title ||
  (match r.extra.bind (·.aliases_title) with
   | some aliases => title ∈ aliases
   | none => false)

/-- The artist predicate of `NewSong::find_or_create`
(src/models/songs.rs:326-328), analogous to the title predicate. -/
def artistMatches (artist : String) (r : SongRow) : Bool :=
  r.song.artist = artist ||
  (r.extra.bind fun e => lowerOpt e.musicbrainz_artist) = some artist ||
  (match r.extra.bind (·.aliases_artist) with
   | some aliases => artist ∈ aliases
   | none => false)

/-- `NewSong::find_or_create` (src/models/songs.rs:305-346): take the
first row of the left join satisfying the title predicate AND the
artist predicate (`first` with no `ORDER BY`); if none, insert a new
`Song` with the given title, artist and modifiers.  Returns the song
and whether a row was created (`id` of a created row is
store-assigned, passed here as `newId`). -/
def NewSong.find_or_create (ns : NewSong) (store : List SongRow)
    (newId : Int) : Song × Bool :=
  match store.find? fun r => titleMatches ns.title r && artistMatches ns.artist r with
  | some r => (r.song, false)
  | none =>
    ({ id := newId, title := ns.title, artist := ns.artist,
       modifiers := ns.modifiers }, true)

/-- The row predicate of the MBID lookup: the row has extra info (the
query is an `INNER JOIN`), its `mbid` equals the recording MBID, and
`modifiers IS NOT DISTINCT FROM parsed_modifiers` (null-safe
equality). -/
def mbidRowMatches (recording_mbid : String) (parsed : Option (List String))
    (r : SongRow) : Bool :=
  match r.extra with
  | some e => e.mbid = some recording_mbid && r.song.modifiers = parsed
  | none => false

/-- The MBID lookup of `fetch_song_id` (src/game/gameplay.rs:89-98):
the first matching row of `songs INNER JOIN extra_song_info` (no
`ORDER BY`). -/
def mbid_lookup (recording_mbid : String) (parsed : Option (List String))
    (store : List SongRow) : Option Song :=
  (store.find? (mbidRowMatches recording_mbid parsed)).map (·.song)

/-! ## `src/game/gameplay.rs` — the dethrone section of `send_ride` -/

/-- A row of the `players` table (the columns `send_ride` and
`steam_sync` read). -/
structure Player where
  id : Int
  username : String
  steam_account_num : Int
  location_id : Int
deriving DecidableEq, Repr

/-- The `<beatscore>` element of the `send_ride` response
(src/game/gameplay.rs:203-218). -/
structure BeatScore where
  dethroned : Bool
  friend : Bool
  rival_name : String
  rival_score : Int
  my_score : Int
  reign_seconds : Int
deriving DecidableEq, Repr

/-- `ORDER BY score DESC ... first()` over an unordered row list: a
row of maximal score (the earliest such row of the list — which one of
several tied rows the store returns is not otherwise observable). -/
def topByScore : List (Score × Player) → Option (Score × Player)
  | [] => none
  | x :: rest =>
    match topByScore rest with
    | none => some x
    | some y => some (if y.1.score > x.1.score then y else x)

/-- The top-score query of `send_ride` (src/game/gameplay.rs:259-267):
scores of the requested song and league by players other than the
submitter, ordered by score descending, first row. -/
def currentTop (rows : List (Score × Player)) (selfId songId : Int)
    (league : League) : Option (Score × Player) :=
  topByScore (rows.filter fun r =>
    r.1.song_id = songId && r.1.league = league && r.1.player_id ≠ selfId)

/-- Nanoseconds per second: `Duration::whole_seconds` truncates the
nanosecond count toward zero. -/
def nsPerSecond : Int := 1000000000

/-- The `beat_score` construction of `send_ride`
(src/game/gameplay.rs:269-312).  `rivalries` is the set of
`(challenger_id, rival_id)` rows; the code looks up the submitter →
leader rivalry and, if present, `Rivalry::is_mutual` checks the
reverse row. -/
def sendRideBeatScore (rows : List (Score × Player))
    (rivalries : List (Int × Int)) (selfId songId : Int) (league : League)
    (submittedScore : Int) (now : Int) : BeatScore :=
  match currentTop rows selfId songId league with
  | some top =>
    { dethroned := top.1.score < submittedScore
      friend := (selfId, top.2.id) ∈ rivalries && (top.2.id, selfId) ∈ rivalries
      rival_name := top.2.username
      rival_score := top.1.score
      my_score := submittedScore
      reign_seconds := Int.tdiv (now - top.1.submitted_at) nsPerSecond }
  | none =>
    { dethroned := false
      friend := false
      rival_name := "No one"
      rival_score := 143
      my_score := 0
      reign_seconds := 0 }

/-! ## `src/game/helpers.rs` — `ticket_auth` -/

/-- The result of a ticket validation: the Steam id (as a string), or
the propagated Steam failure. -/
inductive AuthResult where
  | ok (steam_id : String)
  | error
deriving DecidableEq, Repr

/-- What a `ticket_auth` call did: its result, the
`AuthenticateUserTicket` calls it made (app id, ticket), and the cache
writes it performed (key, value, TTL seconds). -/
structure AuthOutcome where
  result : AuthResult
  steamCalls : List (Nat × String)
  cacheWrites : List (String × String × Nat)
deriving DecidableEq, Repr

/-- Association-list lookup standing for a Redis `GET`. -/
def cacheGet (cache : List (String × String)) (key : String) : Option String :=
  (cache.find? fun kv => kv.1 = key).map (·.2)

/-- `ticket_auth` (src/game/helpers.rs:10-26).  `steam` is the Steam
web API: `steam appId ticket` is the `AuthenticateUserTicket` response
or a failure.  A cached
`steamticket:<ticket>` key is returned as-is with no Steam call; on a
miss the Steam result is cached for `60 * 60 * 8` seconds and
returned; a Steam failure is propagated with no cache write. -/
def ticket_auth (steam : Nat → String → AuthResult)
    (cache : List (String × String)) (ticket : String) : AuthOutcome :=
  match cacheGet cache ("steamticket:" ++ ticket) with
  | some steam_id => { result := .ok steam_id, steamCalls := [], cacheWrites := [] }
  | none =>
    match steam 12900 ticket with
    | .ok steam_id =>
      { result := .ok steam_id
        steamCalls := [(12900, ticket)]
        cacheWrites := [("steamticket:" ++ ticket, steam_id, 60 * 60 * 8)] }
    | .error =>
      { result := .error, steamCalls := [(12900, ticket)], cacheWrites := [] }

/-! ## `src/game/user.rs` — `steam_sync` -/

/-- The status-string format of the `steam_sync` response
(src/game/user.rs:157-160). -/
def syncStatus (x y : Nat) : String :=
  "added " ++ toString x ++ " of " ++ toString y ++ " friends"

/-- `steam_sync` (src/game/user.rs:113-161), after ticket auth: load
the player rows whose `steam_account_num` is among the submitted
numbers, insert a `self → friend` rivalry for each with
`ON CONFLICT DO NOTHING`, and report
`added {friends.len()} of {friend_nums.len()} friends`.  Returns the
status string and the rivalry rows actually inserted. -/
def steam_sync (players : List Player) (rivalries : List (Int × Int))
    (selfId : Int) (friend_nums : List Int) : String × List (Int × Int) :=
  let friends := players.filter fun p => p.steam_account_num ∈ friend_nums
  let inserted := (friends.filter fun f => (selfId, f.id) ∉ rivalries).map
    fun f => (selfId, f.id)
  (syncStatus friends.length friend_nums.length, inserted)

/-! ## Concrete fixtures

Concrete rows and submissions used by counterexamples and witnesses,
drawn from the spec's S1–S4 scenario values where applicable
(`score = 508143`, `gold_threshold = 84490`, Elite league). -/

/-- The S1 personal best: player 1's Elite score on song 2
(`score = 508143`, `gold_threshold = 84490`, one play, submitted at
time 100). -/
def s1Score : Score :=
  { id := 7, song_id := 2, player_id := 1, league := .Elite
    submitted_at := 100, play_count := 1, score := 508143
    track_shape := [68, 65, 62, 58], xstats := [478, 4], density := 994
    vehicle := .PointmanElite, feats := [], song_length := 28224
    gold_threshold := 84490, iss := 0, isj := 0 }

/-- The S4 resubmission: player 1 plays song 2 (Elite) again and scores
only 400000, below the stored 508143. -/
def s4Resubmit : NewScore :=
  { player_id := 1, song_id := 2, league := .Elite, score := 400000
    track_shape := [1, 2], xstats := [3], density := 500
    vehicle := .Eraser, feats := [], song_length := 28224
    gold_threshold := 84490, iss := 0, isj := 0 }

/-- The S3 resubmission: player 1 improves song 2 (Elite) to 550000. -/
def s3Resubmit : NewScore :=
  { player_id := 1, song_id := 2, league := .Elite, score := 550000
    track_shape := [4], xstats := [5], density := 700
    vehicle := .NinjaMono, feats := [], song_length := 28224
    gold_threshold := 84490, iss := 0, isj := 0 }

/-- A stored song carrying a modifier tag, with no extra info. -/
def steepRow : SongRow :=
  { song := { id := 1, title := "A", artist := "B", modifiers := some ["steep"] }
    extra := none }

/-- A resolver input with the same bare title and artist but no
modifiers. -/
def plainNewSong : NewSong := { title := "A", artist := "B", modifiers := none }

/-- A stored row with id 2, title "A", artist "B", no modifiers. -/
def dupRow2 : SongRow :=
  { song := { id := 2, title := "A", artist := "B", modifiers := none }, extra := none }

/-- A stored row with id 1, title "A", artist "B", no modifiers. -/
def dupRow1 : SongRow :=
  { song := { id := 1, title := "A", artist := "B", modifiers := none }, extra := none }

/-- Two stored rows with identical title/artist and no modifiers, the
one with the higher id first in store order. -/
def dupRows : List SongRow := [dupRow2, dupRow1]

/-- A player row for the steam-sync counterexample. -/
def syncFriend : Player :=
  { id := 5, username := "m1nt", steam_account_num := 77, location_id := 1 }

/-- A stored row with id 2 whose extra info carries MBID "mb1". -/
def mbidRow2 : SongRow :=
  { song := { id := 2, title := "Dyad", artist := "Jamie Paige", modifiers := none }
    extra := some { mbid := some "mb1", musicbrainz_title := none
                    musicbrainz_artist := none, aliases_title := none
                    aliases_artist := none } }

/-- A stored row with id 1 whose extra info carries MBID "mb1". -/
def mbidRow1 : SongRow :=
  { song := { id := 1, title := "Dyad", artist := "Jamie Paige", modifiers := none }
    extra := some { mbid := some "mb1", musicbrainz_title := none
                    musicbrainz_artist := none, aliases_title := none
                    aliases_artist := none } }

/-- Two stored rows whose extra info carries the same MBID (and no
modifiers on either side), the higher id first in store order. -/
def mbidRows : List SongRow := [mbidRow2, mbidRow1]

/-- The score and player row of a current song leader (for the
dethrone response), and a mutual rivalry with the submitter. -/
def leaderScore : Score :=
  { s1Score with player_id := 3 }

/-- The leader's player row. -/
def leaderPlayer : Player :=
  { id := 3, username := "p1", steam_account_num := 99, location_id := 1 }

/-! ## General lemmas -/

/-- For a nonnegative numerator and positive denominator the
integer-arithmetic rounding of `roundHalfAway` is the mathematical
round of the exact quotient. -/
theorem roundHalfAway_nonneg_eq (n d : Int) (hn : 0 ≤ n) (hd : 0 < d) :
    roundHalfAway n d = round ((n : ℚ) / (d : ℚ)) := by
  unfold roundHalfAway
  rw [if_pos hn, round_eq]
  have hd2 : (0 : ℤ) ≤ 2 * d := by omega
  have h1 : ((n : ℚ) / (d : ℚ) + 1 / 2) = ((2 * n + d : ℤ) : ℚ) / ((2 * d : ℤ) : ℚ) := by
    have hdq : (d : ℚ) ≠ 0 := by exact_mod_cast hd.ne'
    field_simp
    ring
  rw [h1]
  have hto : ((2 * d).toNat : ℤ) = 2 * d := Int.toNat_of_nonneg hd2
  have h2 := Rat.floor_intCast_div_natCast (2 * n + d) (2 * d).toNat
  have hq : (((2 * d).toNat : ℕ) : ℚ) = ((2 * d : ℤ) : ℚ) := by exact_mod_cast hto
  rw [hq, hto] at h2
  exact h2.symm

/-! ## C2 — the skill-point formula

The claim's formula `round((score / gold_threshold) * (league+1) * 100)`
matches the code, but its cited value does not:
`round((508143 / 84490) * 300) = round(1804.27…) = 1804`, not 1805 (the
game itself reports 1804 skill points for this score — see the xstats
of the source's schema example). -/

/-- C2 counterexample: at the claim's own inputs
(score 508143, gold threshold 84490, Elite league) `calc_skill_points`
returns 1804, not the claimed 1805. -/
theorem C2_counterexample :
    s1Score.calc_skill_points = 1804 ∧ s1Score.calc_skill_points ≠ 1805 := by
  constructor <;> decide

/-- C2 (amended): for every score with a nonnegative value and positive
gold threshold, `calc_skill_points` is
`round((score / gold_threshold) * (league+1) * 100)` — in exact
arithmetic, rounding ties half away from zero; at the cited input the
value is 1804. -/
theorem C2_calc_skill_points_formula (s : Score)
    (hs : 0 ≤ s.score) (hg : 0 < s.gold_threshold) :
    s.calc_skill_points =
      round ((s.score : ℚ) / (s.gold_threshold : ℚ) * (((s.league.val : ℚ) + 1) * 100)) := by
  have hk : (0 : ℤ) < (s.league.val + 1) * 100 := by
    cases s.league <;> simp [League.val]
  unfold Score.calc_skill_points
  rw [roundHalfAway_nonneg_eq _ _ (mul_nonneg hs hk.le) hg]
  congr 1
  push_cast
  ring

/-- C2 witness: the amended formula instantiated at the S1 score, where
it yields 1804. -/
theorem C2_witness :
    0 ≤ s1Score.score ∧ 0 < s1Score.gold_threshold ∧
    s1Score.calc_skill_points =
      round ((s1Score.score : ℚ) / (s1Score.gold_threshold : ℚ) *
        (((s1Score.league.val : ℚ) + 1) * 100)) ∧
    s1Score.calc_skill_points = 1804 :=
  ⟨by decide, by decide,
   C2_calc_skill_points_formula s1Score (by decide) (by decide), by decide⟩

/-! ## C1 — non-improving submissions

The claim says a submission that does not beat the stored personal best
increments `play_count` and refreshes `submitted_at`.  The code's
non-improvement branch (src/models/scores.rs:392-394) returns the
existing row and issues no database or Redis effect at all. -/

/-- C1 counterexample: resubmitting 400000 against the stored 508143
(S4) issues no effects — the stored row keeps `play_count = 1` (the
claim requires 2) and `submitted_at = 100` (the claim requires the
current time 200); the leaderboard part of the claim does hold. -/
theorem C1_counterexample :
    s4Resubmit.create_or_update [s1Score] 200 9 = (s1Score, []) ∧
    s1Score.play_count = 1 ∧ s1Score.submitted_at = 100 ∧
    (applyEffects ⟨[s1Score], fun _ => 1804⟩
      (s4Resubmit.create_or_update [s1Score] 200 9).2).rows = [s1Score] := by
  exact ⟨by decide, by decide, by decide, rfl⟩

/-- C1 (amended): when the submitted score is not strictly greater than
the existing `(player_id, song_id, league)` row's score,
`create_or_update` returns the existing row and issues no effect —
`play_count`, `submitted_at`, the stored score and the leaderboard are
all left unchanged. -/
theorem C1_non_pb_no_effects (ns : NewScore) (rows : List Score)
    (now newId : Int) (existing : Score)
    (hfind : rows.find? ns.keyMatches = some existing)
    (hnotpb : ¬ existing.score < ns.score) :
    ns.create_or_update rows now newId = (existing, []) ∧
    ∀ st : EngineState, applyEffects st (ns.create_or_update rows now newId).2 = st := by
  have h : ns.create_or_update rows now newId = (existing, []) := by
    unfold NewScore.create_or_update
    rw [hfind]
    simp [hnotpb]
  exact ⟨h, fun st => by rw [h]; rfl⟩

/-- C1 witness: the amended statement at the S4 resubmission. -/
theorem C1_witness :
    [s1Score].find? s4Resubmit.keyMatches = some s1Score ∧
    ¬ s1Score.score < s4Resubmit.score ∧
    s4Resubmit.create_or_update [s1Score] 200 9 = (s1Score, []) :=
  ⟨by decide, by decide,
   (C1_non_pb_no_effects s4Resubmit [s1Score] 200 9 s1Score (by decide) (by decide)).1⟩

/-! ## C7 — the Steam ticket cache -/

/-- C7: `ticket_auth` returns a cached `steamticket:<ticket>` value
without any Steam call; on a miss it calls `AuthenticateUserTicket`
for app id 12900 and, on success, stores the id under that key with an
8-hour (28800 s) TTL and returns it; on failure it writes nothing and
returns the error. -/
theorem C7_ticket_auth (steam : Nat → String → AuthResult)
    (cache : List (String × String)) (ticket : String) :
    (∀ v, cacheGet cache ("steamticket:" ++ ticket) = some v →
      ticket_auth steam cache ticket =
        { result := .ok v, steamCalls := [], cacheWrites := [] }) ∧
    (cacheGet cache ("steamticket:" ++ ticket) = none →
      (∀ sid, steam 12900 ticket = .ok sid →
        ticket_auth steam cache ticket =
          { result := .ok sid, steamCalls := [(12900, ticket)],
            cacheWrites := [("steamticket:" ++ ticket, sid, 28800)] }) ∧
      (steam 12900 ticket = .error →
        ticket_auth steam cache ticket =
          { result := .error, steamCalls := [(12900, ticket)],
            cacheWrites := [] })) := by
  refine ⟨fun v hv => ?_, fun hmiss => ⟨fun sid hsid => ?_, fun herr => ?_⟩⟩
  · unfold ticket_auth
    rw [hv]
  · unfold ticket_auth
    rw [hmiss, hsid]
  · unfold ticket_auth
    rw [hmiss, herr]

/-! ## Helper lemmas on `List.find?` -/

/-- `find?` returns the first element satisfying the predicate: if
nothing before `a` satisfies it and `a` does, `a` is returned. -/
theorem find?_append_cons {α : Type} (p : α → Bool) (pre post : List α) (a : α)
    (hpre : ∀ x ∈ pre, p x = false) (ha : p a = true) :
    (pre ++ a :: post).find? p = some a := by
  induction pre with
  | nil => simp [List.find?_cons, ha]
  | cons b bs ih =>
    have hb := hpre b (List.mem_cons_self b bs)
    simp only [List.cons_append, List.find?_cons, hb]
    exact ih fun x hx => hpre x (List.mem_cons_of_mem b hx)

/-! ## C3 — the no-MBID resolver match conditions

The claim requires the stored modifiers to equal the parsed modifier
list.  The query of `NewSong::find_or_create`
(src/models/songs.rs:323-336) filters on the title and artist
predicates only — `modifiers` does not appear in it. -/

/-- C3 counterexample: a stored row with modifiers `["steep"]` is
returned for a query with no modifiers (same bare title and artist).
The claim mandates a new row here, since the normalised modifier lists
differ. -/
theorem C3_counterexample :
    plainNewSong.find_or_create [steepRow] 2 = (steepRow.song, false) ∧
    steepRow.song.modifiers.getD [] ≠ plainNewSong.modifiers.getD [] := by
  constructor <;> decide

/-- C3 (amended): in the no-MBID path, `find_or_create` returns an
existing row only if the stored row's title matches the bare title
(exact `songs.title`, or lowercased `musicbrainz_title` equal to the
bare title, or membership in `aliases_title`) and the artist matches
analogously; modifiers are not consulted.  If no row satisfies these
two conditions, a new `Song` with the bare title, artist and parsed
modifiers is created. -/
theorem C3_find_or_create_no_modifier_check (ns : NewSong)
    (store : List SongRow) (newId : Int) :
    ((ns.find_or_create store newId).2 = false →
      ∃ r ∈ store, titleMatches ns.title r = true ∧
        artistMatches ns.artist r = true ∧
        (ns.find_or_create store newId).1 = r.song) ∧
    ((∀ r ∈ store, ¬(titleMatches ns.title r = true ∧ artistMatches ns.artist r = true)) →
      ns.find_or_create store newId =
        ({ id := newId, title := ns.title, artist := ns.artist,
           modifiers := ns.modifiers }, true)) := by
  constructor
  · intro hfalse
    cases hf : store.find? fun r => titleMatches ns.title r && artistMatches ns.artist r with
    | none =>
      exfalso
      unfold NewSong.find_or_create at hfalse
      rw [hf] at hfalse
      simp at hfalse
    | some r =>
      have hp := List.find?_some hf
      have hm := List.mem_of_find?_eq_some hf
      rw [Bool.and_eq_true] at hp
      refine ⟨r, hm, hp.1, hp.2, ?_⟩
      unfold NewSong.find_or_create
      rw [hf]
  · intro hnone
    unfold NewSong.find_or_create
    have hf : (store.find? fun r => titleMatches ns.title r && artistMatches ns.artist r) = none := by
      rw [List.find?_eq_none]
      intro x hx hcontra
      rw [Bool.and_eq_true] at hcontra
      exact hnone x hx ⟨hcontra.1, hcontra.2⟩
    rw [hf]

/-- C3 witness: the amended statement exercised on both branches — the
modifier-mismatched store row is returned, and a title/artist miss
creates a new row. -/
theorem C3_witness :
    (∃ r ∈ [steepRow], titleMatches plainNewSong.title r = true ∧
      artistMatches plainNewSong.artist r = true ∧
      (plainNewSong.find_or_create [steepRow] 2).1 = r.song) ∧
    NewSong.find_or_create { title := "Z", artist := "B", modifiers := none }
        [steepRow] 3 =
      ({ id := 3, title := "Z", artist := "B", modifiers := none }, true) :=
  ⟨(C3_find_or_create_no_modifier_check plainNewSong [steepRow] 2).1 (by decide),
   (C3_find_or_create_no_modifier_check
      { title := "Z", artist := "B", modifiers := none } [steepRow] 3).2 (by decide)⟩

/-! ## C5 — resolver tie-breaking

The claim requires the lowest-id row when several rows match.  Neither
resolver query has an `ORDER BY`: both take the first matching row in
the order the store returns rows, so the result depends on that
order. -/

/-- C5 counterexample: two stored rows (ids 2 and 1, in that store
order) both match; the resolver returns id 2 — not the lowest id —
and returns id 1 when the store order is reversed, so the result
depends on the row order. -/
theorem C5_counterexample :
    (plainNewSong.find_or_create dupRows 9).1.id = 2 ∧
    (plainNewSong.find_or_create dupRows.reverse 9).1.id = 1 ∧
    (∃ r ∈ dupRows, titleMatches plainNewSong.title r = true ∧
      artistMatches plainNewSong.artist r = true ∧ r.song.id < 2) := by
  refine ⟨by decide, by decide, by decide⟩

/-- C5 (amended): both resolver lookups return the **first** matching
row in the store's row order (no `ORDER BY id` is applied); with more
than one matching row the result is whichever matching row the store
returns first, not necessarily the lowest id. -/
theorem C5_resolver_store_order :
    (∀ (ns : NewSong) (newId : Int) (pre post : List SongRow) (r : SongRow),
      (∀ x ∈ pre, (titleMatches ns.title x && artistMatches ns.artist x) = false) →
      (titleMatches ns.title r && artistMatches ns.artist r) = true →
      ns.find_or_create (pre ++ r :: post) newId = (r.song, false)) ∧
    (∀ (m : String) (mods : Option (List String)) (pre post : List SongRow) (r : SongRow),
      (∀ x ∈ pre, mbidRowMatches m mods x = false) →
      mbidRowMatches m mods r = true →
      mbid_lookup m mods (pre ++ r :: post) = some r.song) := by
  constructor
  · intro ns newId pre post r hpre hr
    unfold NewSong.find_or_create
    rw [find?_append_cons _ pre post r hpre hr]
  · intro m mods pre post r hpre hr
    unfold mbid_lookup
    rw [find?_append_cons _ pre post r hpre hr]
    rfl

/-- C5 witness: both lookups applied to the two-matching-row stores,
returning the first row (id 2). -/
theorem C5_witness :
    plainNewSong.find_or_create ([] ++ dupRow2 :: [dupRow1]) 9 = (dupRow2.song, false) ∧
    mbid_lookup "mb1" none ([] ++ mbidRow2 :: [mbidRow1]) = some mbidRow2.song :=
  ⟨C5_resolver_store_order.1 plainNewSong 9 [] [dupRow1] dupRow2
      (by intro x hx; cases hx) (by decide),
   C5_resolver_store_order.2 "mb1" none [] [mbidRow1] mbidRow2
      (by intro x hx; cases hx) (by decide)⟩

/-! ## C9 — the steam-sync status string -/

/-- Counting matches from either side of a membership relation: for
duplicate-free lists, the elements of `nums` lying in `L` are as many
as the elements of `L` lying in `nums`. -/
theorem length_filter_mem_comm (nums L : List Int)
    (h1 : nums.Nodup) (h2 : L.Nodup) :
    (nums.filter fun n => n ∈ L).length = (L.filter fun n => n ∈ nums).length := by
  have e1 : ∀ (a b : List Int), a.Nodup →
      (a.filter fun n => n ∈ b).length = (a.toFinset ∩ b.toFinset).card := by
    intro a b ha
    rw [← List.toFinset_card_of_nodup (ha.filter _), List.toFinset_filter,
      ← Finset.filter_mem_eq_inter]
    congr 1
    ext x
    simp [List.mem_toFinset]
  rw [e1 nums L h1, e1 L nums h2, Finset.inter_comm]

/-- C9 counterexample: submitting the same matching account number
twice.  The code reports `added 1 of 2 friends` (one matching player
row), while the claim's per-submitted-number count is 2. -/
theorem C9_counterexample :
    (steam_sync [syncFriend] [] 1 [77, 77]).1 = syncStatus 1 2 ∧
    (([77, 77] : List Int).filter fun n =>
      n ∈ [syncFriend].map Player.steam_account_num).length = 2 ∧
    syncStatus 1 2 ≠ syncStatus 2 2 := by
  refine ⟨by decide, by decide, by decide⟩

/-- C9 (amended): the status string is `added X of Y friends` where `X`
is the number of player rows whose `steam_account_num` appears among
the submitted numbers and `Y` the number of submitted numbers; with
duplicate-free submitted numbers (and the unique-account-number
invariant) `X` equals the number of submitted numbers matching a
player row.  Existing rivalries do not enter the count. -/
theorem C9_steam_sync_status (players : List Player)
    (rivalries : List (Int × Int)) (selfId : Int) (friend_nums : List Int)
    (hnodup : friend_nums.Nodup)
    (hnums : (players.map Player.steam_account_num).Nodup) :
    (steam_sync players rivalries selfId friend_nums).1 =
      syncStatus
        (friend_nums.filter fun n => n ∈ players.map Player.steam_account_num).length
        friend_nums.length ∧
    ∀ rivalries2 : List (Int × Int),
      (steam_sync players rivalries selfId friend_nums).1 =
        (steam_sync players rivalries2 selfId friend_nums).1 := by
  constructor
  · simp only [steam_sync]
    congr 1
    have h1 : (players.filter fun p => p.steam_account_num ∈ friend_nums).length
        = ((players.map Player.steam_account_num).filter fun n => n ∈ friend_nums).length := by
      rw [← List.countP_eq_length_filter, ← List.countP_eq_length_filter,
        List.countP_map]
      rfl
    rw [h1, length_filter_mem_comm _ _ hnums hnodup]
  · intro rivalries2
    rfl

/-- C9 witness: the amended count at duplicate-free input `[77, 88]`
against one matching player with an already-existing rivalry. -/
theorem C9_witness :
    (steam_sync [syncFriend] [(1, 5)] 1 [77, 88]).1 = syncStatus 1 2 :=
  ((C9_steam_sync_status [syncFriend] [(1, 5)] 1 [77, 88]
      (by decide) (by decide)).1).trans (by decide)

/-- C7 witness: the three branches exercised on concrete caches and
Steam oracles. -/
theorem C7_witness :
    ticket_auth (fun _ _ => .error) [("steamticket:abc", "76561198")] "abc" =
      { result := .ok "76561198", steamCalls := [], cacheWrites := [] } ∧
    ticket_auth (fun _ t => .ok ("id" ++ t)) [] "abc" =
      { result := .ok "idabc", steamCalls := [(12900, "abc")],
        cacheWrites := [("steamticket:abc", "idabc", 28800)] } ∧
    ticket_auth (fun _ _ => .error) [] "abc" =
      { result := .error, steamCalls := [(12900, "abc")], cacheWrites := [] } :=
  ⟨(C7_ticket_auth (fun _ _ => .error) [("steamticket:abc", "76561198")] "abc").1
      "76561198" (by decide),
   ((C7_ticket_auth (fun _ t => .ok ("id" ++ t)) [] "abc").2 (by decide)).1
      "idabc" (by decide),
   ((C7_ticket_auth (fun _ _ => .error) [] "abc").2 (by decide)).2 (by decide)⟩


/-! ## C6 — the dethrone response of `send_ride` -/

/-- `topByScore` of a non-empty list is `some`. -/
theorem topByScore_isSome (x : Score × Player) (l : List (Score × Player)) :
    topByScore (x :: l) ≠ none := by
  unfold topByScore
  cases topByScore l <;> simp

/-- An element returned by `topByScore` is in the list and has maximal
score. -/
theorem topByScore_spec (l : List (Score × Player)) (y : Score × Player)
    (h : topByScore l = some y) :
    y ∈ l ∧ ∀ z ∈ l, z.1.score ≤ y.1.score := by
  induction l generalizing y with
  | nil => cases h
  | cons x rest ih =>
    unfold topByScore at h
    cases hr : topByScore rest with
    | none =>
      rw [hr] at h
      cases rest with
      | nil =>
        injection h with h
        subst h
        refine ⟨List.mem_cons_self _ _, ?_⟩
        intro z hz
        rcases List.mem_cons.mp hz with hz1 | hz1
        · subst hz1; exact le_refl _
        · cases hz1
      | cons a as => exact absurd hr (topByScore_isSome a as)
    | some w =>
      rw [hr] at h
      injection h with h
      obtain ⟨hwmem, hwmax⟩ := ih w hr
      by_cases hgt : w.1.score > x.1.score
      · rw [if_pos hgt] at h
        subst h
        refine ⟨List.mem_cons_of_mem _ hwmem, ?_⟩
        intro z hz
        rcases List.mem_cons.mp hz with hz | hz
        · subst hz; exact le_of_lt hgt
        · exact hwmax z hz
      · rw [if_neg hgt] at h
        subst h
        refine ⟨List.mem_cons_self _ _, ?_⟩
        intro z hz
        rcases List.mem_cons.mp hz with hz | hz
        · subst hz; exact le_refl _
        · exact le_trans (hwmax z hz) (not_lt.mp hgt)

/-- C6: with a top score by another player present, the response's
`dethroned` is true iff that leader's stored score is strictly below
the submitted score, `friend` is true iff the submitter–leader rivalry
is mutual, `rival_name`/`rival_score` are the leader's username and
score, `my_score` is the submitted score, and `reign_seconds` is the
whole seconds (truncated) between now and the leader's `submitted_at`;
the leader is a maximal-score row of the song and league by another
player, and such a leader exists exactly when some such row exists.
With no leader the response is the sentinel
`{dethroned = false, friend = false, rival_name = "No one",
rival_score = 143, my_score = 0, reign_seconds = 0}`. -/
theorem C6_send_ride_beatscore (rows : List (Score × Player))
    (rivalries : List (Int × Int)) (selfId songId : Int) (league : League)
    (submitted now : Int) :
    (∀ s p, currentTop rows selfId songId league = some (s, p) →
      ((s, p) ∈ rows ∧ s.song_id = songId ∧ s.league = league ∧
        s.player_id ≠ selfId ∧
        (∀ z ∈ rows, z.1.song_id = songId → z.1.league = league →
          z.1.player_id ≠ selfId → z.1.score ≤ s.score)) ∧
      ((sendRideBeatScore rows rivalries selfId songId league submitted now).dethroned
          = true ↔ s.score < submitted) ∧
      ((sendRideBeatScore rows rivalries selfId songId league submitted now).friend
          = true ↔ ((selfId, p.id) ∈ rivalries ∧ (p.id, selfId) ∈ rivalries)) ∧
      (sendRideBeatScore rows rivalries selfId songId league submitted now).rival_name
          = p.username ∧
      (sendRideBeatScore rows rivalries selfId songId league submitted now).rival_score
          = s.score ∧
      (sendRideBeatScore rows rivalries selfId songId league submitted now).my_score
          = submitted ∧
      (sendRideBeatScore rows rivalries selfId songId league submitted now).reign_seconds
          = Int.tdiv (now - s.submitted_at) nsPerSecond) ∧
    (currentTop rows selfId songId league = none →
      sendRideBeatScore rows rivalries selfId songId league submitted now =
        { dethroned := false, friend := false, rival_name := "No one",
          rival_score := 143, my_score := 0, reign_seconds := 0 }) ∧
    (currentTop rows selfId songId league = none ↔
      ∀ z ∈ rows, ¬(z.1.song_id = songId ∧ z.1.league = league ∧
        z.1.player_id ≠ selfId)) := by
  refine ⟨fun s p htop => ?_, fun hnone => ?_, ?_⟩
  · have hspec := topByScore_spec _ _ htop
    have hmem := hspec.1
    rw [List.mem_filter] at hmem
    have hcond := hmem.2
    simp only [Bool.and_eq_true, decide_eq_true_eq] at hcond
    refine ⟨⟨hmem.1, hcond.1.1, hcond.1.2, ?_, ?_⟩, ?_, ?_, ?_, ?_, ?_, ?_⟩
    · simpa using hcond.2
    · intro z hz hsong hlg hne
      refine hspec.2 z (List.mem_filter.mpr ⟨hz, ?_⟩)
      simp only [Bool.and_eq_true, decide_eq_true_eq]
      exact ⟨⟨hsong, hlg⟩, by simpa using hne⟩
    · unfold sendRideBeatScore
      rw [htop]
      simp
    · unfold sendRideBeatScore
      rw [htop]
      simp [Bool.and_eq_true]
    · unfold sendRideBeatScore
      rw [htop]
    · unfold sendRideBeatScore
      rw [htop]
    · unfold sendRideBeatScore
      rw [htop]
    · unfold sendRideBeatScore
      rw [htop]
  · unfold sendRideBeatScore
    rw [hnone]
  · unfold currentTop
    constructor
    · intro hnone z hz hcontra
      have hzf : z ∈ rows.filter fun r =>
          r.1.song_id = songId && r.1.league = league && r.1.player_id ≠ selfId := by
        rw [List.mem_filter]
        refine ⟨hz, ?_⟩
        simp only [Bool.and_eq_true, decide_eq_true_eq]
        exact ⟨⟨hcontra.1, hcontra.2.1⟩, by simpa using hcontra.2.2⟩
      cases hfl : rows.filter fun r =>
          r.1.song_id = songId && r.1.league = league && r.1.player_id ≠ selfId with
      | nil => rw [hfl] at hzf; cases hzf
      | cons a as =>
        rw [hfl] at hnone
        exact absurd hnone (topByScore_isSome a as)
    · intro hall
      have hfl : (rows.filter fun r =>
          r.1.song_id = songId && r.1.league = league && r.1.player_id ≠ selfId) = [] := by
        rw [List.filter_eq_nil_iff]
        intro z hz
        intro hcontra
        rw [Bool.and_eq_true, Bool.and_eq_true] at hcontra
        obtain ⟨⟨h1, h2⟩, h3⟩ := hcontra
        exact hall z hz ⟨by simpa using h1, by simpa using h2, by simpa using h3⟩
      rw [hfl]
      rfl

/-- C6 witness: the dethrone branch at a concrete store — player 1
submits 600000 against leader player 3's 508143 (mutual rivalry, five
whole seconds of reign) — and the sentinel branch on an empty store. -/
theorem C6_witness :
    ((sendRideBeatScore [(leaderScore, leaderPlayer)] [(1, 3), (3, 1)] 1 2
        .Elite 600000 (100 + 5 * nsPerSecond)).dethroned = true ↔
      leaderScore.score < 600000) ∧
    sendRideBeatScore [] [] 1 2 .Elite 600000 0 =
      { dethroned := false, friend := false, rival_name := "No one",
        rival_score := 143, my_score := 0, reign_seconds := 0 } :=
  ⟨((C6_send_ride_beatscore [(leaderScore, leaderPlayer)] [(1, 3), (3, 1)] 1 2
      .Elite 600000 (100 + 5 * nsPerSecond)).1 leaderScore leaderPlayer
      (by decide)).2.1,
   (C6_send_ride_beatscore [] [] 1 2 .Elite 600000 0).2.1 (by decide)⟩


/-! ## C8 — effect order on a personal-best improvement -/

/-- `playerSkillSum` distributes over append. -/
theorem playerSkillSum_append (l1 l2 : List Score) (p : Int) :
    playerSkillSum (l1 ++ l2) p = playerSkillSum l1 p + playerSkillSum l2 p := by
  unfold playerSkillSum
  rw [List.filter_append, List.map_append, List.sum_append]

/-- `playerSkillSum` over a cons. -/
theorem playerSkillSum_cons (x : Score) (l : List Score) (p : Int) :
    playerSkillSum (x :: l) p =
      (if x.player_id = p then x.calc_skill_points else 0) + playerSkillSum l p := by
  unfold playerSkillSum
  by_cases h : x.player_id = p <;> simp [List.filter_cons, h]

/-- Skill points are nonnegative for a nonnegative score and positive
gold threshold (the hypotheses of the C8 statement are satisfiable —
indeed typical). -/
theorem calc_skill_points_nonneg (s : Score)
    (hs : 0 ≤ s.score) (hg : 0 < s.gold_threshold) :
    0 ≤ s.calc_skill_points := by
  have hk : (0 : ℤ) ≤ (s.league.val + 1) * 100 := by
    cases s.league <;> simp [League.val]
  have hn : 0 ≤ s.score * ((s.league.val + 1) * 100) := mul_nonneg hs hk
  unfold Score.calc_skill_points roundHalfAway
  rw [if_pos hn]
  exact Int.ediv_nonneg (by omega) (by omega)

/-- C8: on a personal-best improvement the engine issues exactly
(a) `ZINCRBY` of minus the old skill points, then (b) the row update,
then (c) `ZINCRBY` of the new skill points — and, starting from a
consistent state, after every prefix of that effect list the
player's leaderboard entry is at most the skill-point sum of the
player's stored rows (never greater), assuming nonnegative skill
points. -/
theorem C8_pb_effect_order (ns : NewScore) (pre post : List Score)
    (existing : Score) (now newId : Int)
    (hpre : ∀ r ∈ pre, ns.keyMatches r = false)
    (hpost : ∀ r ∈ post, ns.keyMatches r = false)
    (hkey : ns.keyMatches existing = true)
    (himp : existing.score < ns.score)
    (hspOld : 0 ≤ existing.calc_skill_points)
    (hspNew : 0 ≤ (ns.updatedRow existing now).calc_skill_points) :
    (ns.create_or_update (pre ++ existing :: post) now newId).2 =
      [Effect.zincrby existing.player_id (0 - existing.calc_skill_points),
       Effect.updateRow (ns.updatedRow existing now),
       Effect.zincrby existing.player_id
         (ns.updatedRow existing now).calc_skill_points] ∧
    ∀ st : EngineState, st.rows = pre ++ existing :: post →
      st.lb existing.player_id = playerSkillSum st.rows existing.player_id →
      ∀ k, k ≤ 3 →
        (applyEffects st
            ((ns.create_or_update (pre ++ existing :: post) now newId).2.take k)).lb
          existing.player_id ≤
        playerSkillSum
          (applyEffects st
            ((ns.create_or_update (pre ++ existing :: post) now newId).2.take k)).rows
          existing.player_id := by
  have hfind : (pre ++ existing :: post).find? ns.keyMatches = some existing :=
    find?_append_cons _ pre post existing hpre hkey
  have heffs : (ns.create_or_update (pre ++ existing :: post) now newId).2 =
      [Effect.zincrby existing.player_id (0 - existing.calc_skill_points),
       Effect.updateRow (ns.updatedRow existing now),
       Effect.zincrby existing.player_id
         (ns.updatedRow existing now).calc_skill_points] := by
    unfold NewScore.create_or_update
    rw [hfind]
    simp [himp]
    rfl
  refine ⟨heffs, ?_⟩
  -- the key of the updated row coincides with the submission key
  have hkey' := hkey
  unfold NewScore.keyMatches at hkey'
  rw [Bool.and_eq_true, Bool.and_eq_true] at hkey'
  obtain ⟨⟨hkp, hks⟩, hkl⟩ := hkey'
  have hp1 : existing.player_id = ns.player_id := by simpa using hkp
  have hp2 : existing.song_id = ns.song_id := by simpa using hks
  have hp3 : existing.league = ns.league := by simpa using hkl
  have hkeyeq : ∀ r : Score,
      (r.player_id = (ns.updatedRow existing now).player_id &&
       r.song_id = (ns.updatedRow existing now).song_id &&
       r.league = (ns.updatedRow existing now).league) = ns.keyMatches r := by
    intro r
    show (r.player_id = existing.player_id && r.song_id = existing.song_id &&
      r.league = existing.league) = ns.keyMatches r
    rw [hp1, hp2, hp3]
    rfl
  have hmap : (pre ++ existing :: post).map
      (fun r => if r.player_id = (ns.updatedRow existing now).player_id &&
          r.song_id = (ns.updatedRow existing now).song_id &&
          r.league = (ns.updatedRow existing now).league
        then ns.updatedRow existing now else r) =
      pre ++ ns.updatedRow existing now :: post := by
    rw [List.map_append, List.map_cons]
    congr 1
    · conv_rhs => rw [show pre = pre.map id from (List.map_id pre).symm]
      apply List.map_congr_left
      intro r hr
      rw [hkeyeq r, hpre r hr]
      rfl
    · congr 1
      · rw [hkeyeq existing, hkey]
        rfl
      · conv_rhs => rw [show post = post.map id from (List.map_id post).symm]
        apply List.map_congr_left
        intro r hr
        rw [hkeyeq r, hpost r hr]
        rfl
  intro st hrows hlb k hk
  rw [heffs]
  have hS : playerSkillSum (pre ++ existing :: post) existing.player_id =
      playerSkillSum pre existing.player_id + existing.calc_skill_points +
        playerSkillSum post existing.player_id := by
    rw [playerSkillSum_append, playerSkillSum_cons, if_pos rfl]
    ring
  have hS' : playerSkillSum (pre ++ ns.updatedRow existing now :: post)
        existing.player_id =
      playerSkillSum pre existing.player_id +
        (ns.updatedRow existing now).calc_skill_points +
        playerSkillSum post existing.player_id := by
    rw [playerSkillSum_append, playerSkillSum_cons]
    show _ + ((if existing.player_id = existing.player_id then _ else 0) + _) = _
    rw [if_pos rfl]
    ring
  interval_cases k
  · simpa [applyEffects] using le_of_eq hlb
  · simp only [List.take_succ_cons, List.take_zero, applyEffects,
      List.foldl_cons, List.foldl_nil, applyEffect]
    simp only [eq_self_iff_true, if_true]
    rw [hlb, hrows, hS]
    omega
  · simp only [List.take_succ_cons, List.take_zero, applyEffects,
      List.foldl_cons, List.foldl_nil, applyEffect]
    simp only [eq_self_iff_true, if_true]
    rw [hlb, hrows, hmap, hS', hS]
    omega
  · simp only [List.take_succ_cons, List.take_zero, applyEffects,
      List.foldl_cons, List.foldl_nil, applyEffect]
    simp only [eq_self_iff_true, if_true]
    rw [hlb, hrows, hmap, hS', hS]
    omega

/-- C8 witness: the S3 improvement (550000 over 508143) issues exactly
the subtract–update–add effect list. -/
theorem C8_witness :
    (s3Resubmit.create_or_update [s1Score] 200 9).2 =
      [Effect.zincrby s1Score.player_id (0 - s1Score.calc_skill_points),
       Effect.updateRow (s3Resubmit.updatedRow s1Score 200),
       Effect.zincrby s1Score.player_id
         (s3Resubmit.updatedRow s1Score 200).calc_skill_points] :=
  (C8_pb_effect_order s3Resubmit [] [] s1Score 200 9
    (by intro r hr; cases hr) (by intro r hr; cases hr)
    (by decide) (by decide) (by decide) (by decide)).1


/-! ## C4 — the x-separated roundtrip

`join_x_separated [] = "x"`, and `split_x_separated "x"` strips the
trailing `x`, splits the empty remainder into one empty piece, and
fails to parse that piece as an `i32` — so the claimed roundtrip fails
at the empty vector.  For non-empty vectors (of in-range values) it
holds. -/

/-- Parsing the rendered digit character gives the digit back. -/
theorem charToDigit_digitChar (d : Nat) (hd : d < 10) :
    charToDigit (digitChar d) = some d := by
  interval_cases d <;> decide

/-- Rendered digit characters lie in the ASCII digit range. -/
theorem digitChar_toNat (d : Nat) (hd : d < 10) :
    48 ≤ (digitChar d).toNat ∧ (digitChar d).toNat ≤ 57 := by
  interval_cases d <;> decide

/-- Digit accumulation over an append runs the two parts in
sequence. -/
theorem parseNatFrom_append (acc : Nat) (s t : List Char) :
    parseNatFrom acc (s ++ t) =
      match parseNatFrom acc s with
      | none => none
      | some a => parseNatFrom a t := by
  induction s generalizing acc with
  | nil => rfl
  | cons c cs ih =>
    cases hc : charToDigit c with
    | none => simp [parseNatFrom, hc]
    | some d => simp [parseNatFrom, hc, ih]

/-- Parsing the fuel-indexed digit rendering of `n` appends `n` to the
accumulator shifted by the number of rendered digits. -/
theorem parseNatFrom_natToCharsAux (fuel : Nat) :
    ∀ n, n ≤ fuel → ∀ acc,
      parseNatFrom acc (natToCharsAux fuel n) =
        some (acc * 10 ^ (natToCharsAux fuel n).length + n) := by
  induction fuel with
  | zero =>
    intro n hn acc
    have h0 : n = 0 := Nat.le_zero.mp hn
    subst h0
    simp [natToCharsAux, parseNatFrom]
  | succ fuel ih =>
    intro n hn acc
    by_cases h0 : n = 0
    · subst h0
      simp [natToCharsAux, parseNatFrom]
    · rw [natToCharsAux, if_neg h0]
      have hdiv : n / 10 ≤ fuel := by
        have h10 : n / 10 < n := Nat.div_lt_self (Nat.pos_of_ne_zero h0) (by norm_num)
        omega
      rw [parseNatFrom_append, ih (n / 10) hdiv acc]
      have hm : n % 10 < 10 := Nat.mod_lt _ (by norm_num)
      simp only [parseNatFrom, charToDigit_digitChar _ hm, List.length_append,
        List.length_singleton, Option.some.injEq]
      have hdm : 10 * (n / 10) + n % 10 = n := Nat.div_add_mod n 10
      rw [pow_succ, ← mul_assoc]
      omega

/-- The digit rendering is never empty. -/
theorem natToChars_ne_nil (n : Nat) : natToChars n ≠ [] := by
  unfold natToChars
  by_cases h0 : n = 0
  · rw [if_pos h0]; simp
  · rw [if_neg h0]
    cases n with
    | zero => exact absurd rfl h0
    | succ m =>
      rw [natToCharsAux, if_neg h0]
      simp

/-- Parsing the decimal rendering of a natural number gives it back. -/
theorem parseNat_natToChars (n : Nat) : parseNat (natToChars n) = some n := by
  by_cases h0 : n = 0
  · subst h0; decide
  · have hne := natToChars_ne_nil n
    unfold natToChars at hne ⊢
    rw [if_neg h0] at hne ⊢
    cases hs : natToCharsAux n n with
    | nil => exact absurd hs hne
    | cons c cs =>
      show parseNatFrom 0 (c :: cs) = some n
      rw [← hs, parseNatFrom_natToCharsAux n n (le_refl n) 0]
      simp

/-- Every character of the fuel-indexed digit rendering is an ASCII
digit. -/
theorem natToCharsAux_digits (fuel : Nat) :
    ∀ n, ∀ c ∈ natToCharsAux fuel n, 48 ≤ c.toNat ∧ c.toNat ≤ 57 := by
  induction fuel with
  | zero => intro n c hc; cases hc
  | succ fuel ih =>
    intro n c hc
    rw [natToCharsAux] at hc
    by_cases h0 : n = 0
    · rw [if_pos h0] at hc; cases hc
    · rw [if_neg h0] at hc
      rcases List.mem_append.mp hc with h | h
      · exact ih _ c h
      · rw [List.mem_singleton] at h
        subst h
        exact digitChar_toNat _ (Nat.mod_lt _ (by norm_num))

/-- Every character of the decimal rendering is an ASCII digit. -/
theorem natToChars_digits (n : Nat) :
    ∀ c ∈ natToChars n, 48 ≤ c.toNat ∧ c.toNat ≤ 57 := by
  intro c hc
  unfold natToChars at hc
  by_cases h0 : n = 0
  · rw [if_pos h0] at hc
    rw [List.mem_singleton] at hc
    subst hc
    decide
  · rw [if_neg h0] at hc
    exact natToCharsAux_digits n n c hc

/-- The `i32` rendering is never empty. -/
theorem intToChars_ne_nil (n : Int) : intToChars n ≠ [] := by
  unfold intToChars
  by_cases hneg : n < 0
  · rw [if_pos hneg]; simp
  · rw [if_neg hneg]; exact natToChars_ne_nil _

/-- The `i32` rendering never contains the separator `x`. -/
theorem intToChars_no_x (n : Int) : 'x' ∉ intToChars n := by
  unfold intToChars
  by_cases hneg : n < 0
  · rw [if_pos hneg]
    intro h
    rcases List.mem_cons.mp h with h | h
    · cases h
    · have := natToChars_digits _ _ h
      revert this
      decide
  · rw [if_neg hneg]
    intro h
    have := natToChars_digits _ _ h
    revert this
    decide

/-- The unfolding of `parseI32` on a non-empty string. -/
theorem parseI32_cons (c : Char) (rest : List Char) :
    parseI32 (c :: rest) =
      if c = '-' then
        (parseNat rest).bind fun m =>
          if m ≤ 2 ^ 31 then some (-(m : Int)) else none
      else if c = '+' then
        (parseNat rest).bind fun m =>
          if m < 2 ^ 31 then some (m : Int) else none
      else
        (parseNat (c :: rest)).bind fun m =>
          if m < 2 ^ 31 then some (m : Int) else none := rfl

/-- Parsing the `i32` rendering of an in-range integer gives it
back. -/
theorem parseI32_intToChars (n : Int) (h1 : -(2 ^ 31) ≤ n) (h2 : n < 2 ^ 31) :
    parseI32 (intToChars n) = some n := by
  unfold intToChars
  by_cases hneg : n < 0
  · rw [if_pos hneg]
    show parseI32 ('-' :: natToChars n.natAbs) = some n
    rw [parseI32_cons, if_pos rfl, parseNat_natToChars]
    have hcast : (n.natAbs : Int) = -n := Int.ofNat_natAbs_of_nonpos (le_of_lt hneg)
    have hle : n.natAbs ≤ 2 ^ 31 := by
      have hx : (n.natAbs : Int) ≤ ((2 ^ 31 : Nat) : Int) := by
        rw [hcast]; push_cast; omega
      exact_mod_cast hx
    simp only [Option.some_bind, if_pos hle, Option.some.injEq]
    rw [hcast, neg_neg]
  · rw [if_neg hneg]
    have hnn : 0 ≤ n := not_lt.mp hneg
    cases hs : natToChars n.toNat with
    | nil => exact absurd hs (natToChars_ne_nil _)
    | cons c cs =>
      have hcd : 48 ≤ c.toNat ∧ c.toNat ≤ 57 :=
        natToChars_digits _ c (hs ▸ List.mem_cons_self c cs)
      have hc1 : ¬(c = '-') := by
        intro h; rw [h] at hcd; exact absurd hcd.1 (by decide)
      have hc2 : ¬(c = '+') := by
        intro h; rw [h] at hcd; exact absurd hcd.1 (by decide)
      rw [parseI32_cons, if_neg hc1, if_neg hc2, ← hs, parseNat_natToChars]
      have hlt : n.toNat < 2 ^ 31 := by
        have hx : ((n.toNat : Nat) : Int) < ((2 ^ 31 : Nat) : Int) := by
          rw [Int.toNat_of_nonneg hnn]; push_cast; omega
        exact_mod_cast hx
      simp only [Option.some_bind, if_pos hlt, Option.some.injEq]
      exact Int.toNat_of_nonneg hnn

/-- Splitting a separator-free string gives one piece. -/
theorem splitOnChar_no_sep (c : Char) (p : List Char) (hp : c ∉ p) :
    splitOnChar c p = [p] := by
  induction p with
  | nil => rfl
  | cons a rest ih =>
    have ha : ¬(a = c) := fun h => hp (h ▸ List.mem_cons_self a rest)
    have hrest : c ∉ rest := fun h => hp (List.mem_cons_of_mem a h)
    rw [splitOnChar, if_neg ha, ih hrest]

/-- Splitting at the first separator yields the separator-free front as
the first piece. -/
theorem splitOnChar_append_sep (c : Char) (p t : List Char) (hp : c ∉ p) :
    splitOnChar c (p ++ c :: t) = p :: splitOnChar c t := by
  induction p with
  | nil =>
    show splitOnChar c (c :: t) = [] :: splitOnChar c t
    rw [splitOnChar, if_pos rfl]
  | cons a rest ih =>
    have ha : ¬(a = c) := fun h => hp (h ▸ List.mem_cons_self a rest)
    have hrest : c ∉ rest := fun h => hp (List.mem_cons_of_mem a h)
    show splitOnChar c (a :: (rest ++ c :: t)) = (a :: rest) :: splitOnChar c t
    rw [splitOnChar, if_neg ha, ih hrest]

/-- Splitting a separator-joined list of separator-free pieces gives
the pieces back (for at least one piece). -/
theorem splitOnChar_joinWith (c : Char) (ps : List (List Char)) (hne : ps ≠ [])
    (hp : ∀ p ∈ ps, c ∉ p) :
    splitOnChar c (joinWith [c] ps) = ps := by
  induction ps with
  | nil => exact absurd rfl hne
  | cons p rest ih =>
    cases rest with
    | nil =>
      show splitOnChar c p = [p]
      exact splitOnChar_no_sep c p (hp p (List.mem_cons_self _ _))
    | cons q qs =>
      have hstep : joinWith [c] (p :: q :: qs) = p ++ c :: joinWith [c] (q :: qs) := by
        rw [joinWith]
        simp
      rw [hstep, splitOnChar_append_sep c _ _ (hp p (List.mem_cons_self _ _)),
        ih (by simp) fun r hr => hp r (List.mem_cons_of_mem _ hr)]

/-- `mapM` of a pointwise-successful parse succeeds with the original
values. -/
theorem mapM_parseI32 (v : List Int)
    (h : ∀ n ∈ v, parseI32 (intToChars n) = some n) :
    (v.map intToChars).mapM parseI32 = some v := by
  induction v with
  | nil => rfl
  | cons n rest ih =>
    rw [List.map_cons, List.mapM_cons, h n (List.mem_cons_self _ _),
      ih fun m hm => h m (List.mem_cons_of_mem _ hm)]
    rfl

/-- C4 counterexample: for the empty vector the join renders `"x"`,
which the split rejects (its single piece is the empty string, which
is not a valid `i32`) — the roundtrip does not return `Ok([])`. -/
theorem C4_counterexample :
    join_x_separated [] = ['x'] ∧ split_x_separated (join_x_separated []) = none := by
  constructor <;> decide

/-- C4 (amended): for every **non-empty** `Vec<i32>` `v` (elements in
`i32` range by type), `split_x_separated (join_x_separated v)` returns
`Ok(v)`; at the empty vector the split fails instead. -/
theorem C4_roundtrip (v : List Int) (hne : v ≠ [])
    (hrange : ∀ n ∈ v, -(2 ^ 31) ≤ n ∧ n < 2 ^ 31) :
    split_x_separated (join_x_separated v) = some v := by
  unfold join_x_separated split_x_separated
  have hje : joinWith ['x'] (v.map intToChars) ++ ['x'] ≠ [] := by simp
  rw [if_neg hje, List.getLast?_concat, if_pos rfl, List.dropLast_concat]
  rw [splitOnChar_joinWith 'x' _ (by simpa using hne) ?nox]
  case nox =>
    intro p hp
    rw [List.mem_map] at hp
    obtain ⟨n, _, rfl⟩ := hp
    exact intToChars_no_x n
  exact mapM_parseI32 v fun n hn => parseI32_intToChars n (hrange n hn).1 (hrange n hn).2

/-- C4 witness: the amended roundtrip at `[12, -5, 0]`. -/
theorem C4_witness :
    ([12, -5, 0] : List Int) ≠ [] ∧
    split_x_separated (join_x_separated [12, -5, 0]) = some [12, -5, 0] :=
  ⟨by decide, C4_roundtrip [12, -5, 0] (by decide) (by decide)⟩


/-! ## C10 — stripping modifiers leaves no trailing modifiers

Outline: `remove_modifiers_from_title` cuts the title at the leftmost
position whose suffix is a tag region, then trims trailing whitespace.
If the remaining text still ended in a tag region, that region —
followed by the trimmed whitespace and the region that was cut — would
itself be a region starting further left, contradicting leftmostness.
The lemmas below make each step of that argument precise. -/

/-- `takeWhile` stops exactly at the first failing element. -/
theorem takeWhile_all_append (p : Char → Bool) (ct : List Char) (b : Char)
    (r : List Char) (hall : ∀ c ∈ ct, p c = true) (hb : p b = false) :
    ((ct ++ b :: r).takeWhile p) = ct := by
  induction ct with
  | nil => simp [List.takeWhile_cons, hb]
  | cons a cs ih =>
    have ha := hall a (List.mem_cons_self _ _)
    simp [List.takeWhile_cons, ha,
      ih fun c hc => hall c (List.mem_cons_of_mem _ hc)]

/-- `dropWhile` drops exactly up to the first failing element. -/
theorem dropWhile_all_append (p : Char → Bool) (ct : List Char) (b : Char)
    (r : List Char) (hall : ∀ c ∈ ct, p c = true) (hb : p b = false) :
    ((ct ++ b :: r).dropWhile p) = b :: r := by
  induction ct with
  | nil => simp [List.dropWhile_cons, hb]
  | cons a cs ih =>
    have ha := hall a (List.mem_cons_self _ _)
    simp [List.dropWhile_cons, ha,
      ih fun c hc => hall c (List.mem_cons_of_mem _ hc)]

/-- `dropWhile` over an append whose first part is all-satisfying. -/
theorem dropWhile_append_all (p : Char → Bool) (w t : List Char)
    (hw : ∀ c ∈ w, p c = true) :
    ((w ++ t).dropWhile p) = t.dropWhile p := by
  induction w with
  | nil => rfl
  | cons a cs ih =>
    have ha := hw a (List.mem_cons_self _ _)
    simp [List.dropWhile_cons, ha,
      ih fun c hc => hw c (List.mem_cons_of_mem _ hc)]

/-- `dropWhile` over an append, when the first part already retains
something. -/
theorem dropWhile_append_ne_nil (p : Char → Bool) (l t : List Char)
    (h : l.dropWhile p ≠ []) :
    ((l ++ t).dropWhile p) = l.dropWhile p ++ t := by
  induction l with
  | nil => exact absurd rfl h
  | cons a cs ih =>
    by_cases ha : p a
    · rw [List.dropWhile_cons_of_pos ha] at h
      simp only [List.cons_append, List.dropWhile_cons_of_pos ha]
      exact ih h
    · have ha' : p a = false := Bool.not_eq_true _ ▸ eq_false_of_ne_true ha
      simp [List.cons_append, List.dropWhile_cons_of_neg ha]

/-- The unfolding of `parseTag` on a string of length at least four. -/
theorem parseTag_cons4 (c1 c2 c3 c4 : Char) (rest : List Char) :
    parseTag (c1 :: c2 :: c3 :: c4 :: rest) =
      if c1 = '[' ∧ c2 = 'a' ∧ c3 = 's' ∧ c4 = '-' then
        if rest.takeWhile isAsciiAlnum = [] then none
        else
          match rest.dropWhile isAsciiAlnum with
          | c :: r => if c = ']' then some (rest.takeWhile isAsciiAlnum, r) else none
          | [] => none
      else none := rfl

/-- The structure of a successful `parseTag`: the input is the literal
`[as-`, the non-empty alphanumeric content, `]`, and the remainder. -/
theorem parseTag_some (s ct r : List Char) (h : parseTag s = some (ct, r)) :
    s = '[' :: 'a' :: 's' :: '-' :: (ct ++ ']' :: r) ∧ ct ≠ [] ∧
      ∀ c ∈ ct, isAsciiAlnum c = true := by
  rcases s with _ | ⟨c1, _ | ⟨c2, _ | ⟨c3, _ | ⟨c4, rest⟩⟩⟩⟩
  · exact absurd h (by simp [parseTag])
  · exact absurd h (by simp [parseTag])
  · exact absurd h (by simp [parseTag])
  · exact absurd h (by simp [parseTag])
  · rw [parseTag_cons4] at h
    by_cases hp : c1 = '[' ∧ c2 = 'a' ∧ c3 = 's' ∧ c4 = '-'
    · rw [if_pos hp] at h
      obtain ⟨rfl, rfl, rfl, rfl⟩ := hp
      by_cases hct : rest.takeWhile isAsciiAlnum = []
      · rw [if_pos hct] at h; cases h
      · rw [if_neg hct] at h
        cases hd : rest.dropWhile isAsciiAlnum with
        | nil => rw [hd] at h; cases h
        | cons c rr =>
          rw [hd] at h
          have h2 : (if c = ']' then some (rest.takeWhile isAsciiAlnum, rr) else none)
              = some (ct, r) := h
          by_cases hc : c = ']'
          · rw [if_pos hc] at h2
            injection h2 with h2
            rw [Prod.mk.injEq] at h2
            obtain ⟨hA, hB⟩ := h2
            subst hc
            refine ⟨?_, hA ▸ hct, fun x hx => List.mem_takeWhile_imp (hA ▸ hx)⟩
            have hr : rest = ct ++ ']' :: r := by
              conv_lhs => rw [← List.takeWhile_append_dropWhile isAsciiAlnum rest]
              rw [hd, hA, hB]
            rw [hr]
          · rw [if_neg hc] at h2; cases h2
    · rw [if_neg hp] at h; cases h

/-- The converse construction: a well-formed tag string parses to its
content and remainder. -/
theorem parseTag_build (ct r : List Char) (hct : ct ≠ [])
    (hall : ∀ c ∈ ct, isAsciiAlnum c = true) :
    parseTag ('[' :: 'a' :: 's' :: '-' :: (ct ++ ']' :: r)) = some (ct, r) := by
  have htw := takeWhile_all_append isAsciiAlnum ct ']' r hall (by decide)
  have hdw := dropWhile_all_append isAsciiAlnum ct ']' r hall (by decide)
  show (if '[' = '[' ∧ 'a' = 'a' ∧ 's' = 's' ∧ '-' = '-' then
      if (ct ++ ']' :: r).takeWhile isAsciiAlnum = [] then none
      else
        match (ct ++ ']' :: r).dropWhile isAsciiAlnum with
        | c :: rr => if c = ']' then some ((ct ++ ']' :: r).takeWhile isAsciiAlnum, rr) else none
        | [] => none
    else none) = some (ct, r)
  rw [if_pos ⟨rfl, rfl, rfl, rfl⟩, htw, hdw, if_neg hct]
  simp

/-- A successful `parseTag` still succeeds with anything appended,
extending the remainder. -/
theorem parseTag_append (s ct r z : List Char)
    (h : parseTag s = some (ct, r)) :
    parseTag (s ++ z) = some (ct, r ++ z) := by
  obtain ⟨hs, hct, hall⟩ := parseTag_some s ct r h
  subst hs
  show parseTag ('[' :: 'a' :: 's' :: '-' :: ((ct ++ ']' :: r) ++ z)) = some (ct, r ++ z)
  rw [List.append_assoc, List.cons_append]
  exact parseTag_build ct (r ++ z) hct hall

/-- A tag consumes at least the six characters `[as-c]`. -/
theorem parseTag_length (s ct r : List Char) (h : parseTag s = some (ct, r)) :
    r.length + 6 ≤ s.length := by
  obtain ⟨hs, hct, -⟩ := parseTag_some s ct r h
  subst hs
  have h1 : 1 ≤ ct.length := List.length_pos.mpr hct
  simp [List.length_append]
  omega

/-- Too-short strings hold no tag. -/
theorem parseTag_short (s : List Char) (h : s.length < 6) : parseTag s = none := by
  cases hp : parseTag s with
  | none => rfl
  | some z =>
    obtain ⟨ct, r⟩ := z
    have := parseTag_length _ _ _ hp
    omega


/-- `dropWhile` never lengthens a list. -/
theorem length_dropWhile_le (p : Char → Bool) (l : List Char) :
    (l.dropWhile p).length ≤ l.length := by
  induction l with
  | nil => exact le_refl _
  | cons a l ih =>
    by_cases ha : p a = true
    · rw [List.dropWhile_cons_of_pos ha]
      exact le_trans ih (by simp)
    · rw [List.dropWhile_cons_of_neg ha]

/-- The unfolding of `regionFromAux` at positive fuel. -/
theorem regionFromAux_succ (f : Nat) (s : List Char) :
    regionFromAux (f + 1) s =
      (parseTag s).bind fun p =>
        if p.2.dropWhile Char.isWhitespace = [] then some [p.1]
        else (regionFromAux f (p.2.dropWhile Char.isWhitespace)).map (p.1 :: ·) := rfl

/-- No fuel parses the empty string as a region. -/
theorem regionFromAux_nil (f : Nat) : regionFromAux f [] = none := by
  cases f <;> rfl

/-- `regionFromAux` does not depend on the fuel, as long as the fuel
covers the string length. -/
theorem regionFromAux_congr (f : Nat) :
    ∀ (g : Nat) (s : List Char), s.length ≤ f → s.length ≤ g →
      regionFromAux f s = regionFromAux g s := by
  induction f with
  | zero =>
    intro g s hf _
    have h0 : s = [] := List.eq_nil_of_length_eq_zero (Nat.le_zero.mp hf)
    subst h0
    rw [regionFromAux_nil, regionFromAux_nil]
  | succ f ih =>
    intro g s hf hg
    cases s with
    | nil => rw [regionFromAux_nil, regionFromAux_nil]
    | cons a s' =>
      cases g with
      | zero => simp at hg
      | succ g' =>
        rw [regionFromAux_succ, regionFromAux_succ]
        cases hpt : parseTag (a :: s') with
        | none => rfl
        | some p =>
          simp only [Option.some_bind]
          by_cases hdw : p.2.dropWhile Char.isWhitespace = []
          · rw [if_pos hdw, if_pos hdw]
          · rw [if_neg hdw, if_neg hdw]
            have hlen := parseTag_length _ p.1 p.2 hpt
            have hdl := length_dropWhile_le Char.isWhitespace p.2
            have hle : (p.2.dropWhile Char.isWhitespace).length ≤ f := by
              simp only [List.length_cons] at hf hlen
              omega
            have hge : (p.2.dropWhile Char.isWhitespace).length ≤ g' := by
              simp only [List.length_cons] at hg hlen
              omega
            rw [ih g' _ hle hge]

/-- `regionFrom` is `regionFromAux` at any sufficient fuel. -/
theorem regionFrom_eq_aux (f : Nat) (s : List Char) (h : s.length ≤ f) :
    regionFromAux f s = regionFrom s :=
  regionFromAux_congr f s.length s h (le_refl _)

/-- A region starts with `[`. -/
theorem regionFrom_head (v : List Char) (B : List (List Char))
    (h : regionFrom v = some B) : ∃ v', v = '[' :: v' := by
  cases v with
  | nil => rw [show regionFrom [] = none from rfl] at h; cases h
  | cons a v' =>
    have h' : regionFromAux (v'.length + 1) (a :: v') = some B := h
    rw [regionFromAux_succ] at h'
    cases hpt : parseTag (a :: v') with
    | none => rw [hpt] at h'; cases h'
    | some p =>
      obtain ⟨hs, -, -⟩ := parseTag_some _ p.1 p.2 hpt
      exact ⟨_, hs⟩

/-- Concatenating a region, whitespace, and another region yields a
region whose tag list is the concatenation. -/
theorem regionFrom_append_aux (w v : List Char) (B : List (List Char))
    (hw : ∀ c ∈ w, Char.isWhitespace c = true)
    (hv : regionFrom v = some B) :
    ∀ (f : Nat) (u : List Char) (A : List (List Char)), u.length ≤ f →
      regionFromAux f u = some A →
      regionFrom (u ++ (w ++ v)) = some (A ++ B) := by
  intro f
  induction f with
  | zero =>
    intro u A hu0 hA
    rw [show regionFromAux 0 u = none from rfl] at hA
    cases hA
  | succ f ih =>
    intro u A hlen hA
    rw [regionFromAux_succ] at hA
    cases hpt : parseTag u with
    | none => rw [hpt] at hA; cases hA
    | some p =>
      rw [hpt] at hA
      simp only [Option.some_bind] at hA
      have hu6 : 6 ≤ u.length := by
        have := parseTag_length u p.1 p.2 hpt
        omega
      have hptz : parseTag (u ++ (w ++ v)) = some (p.1, p.2 ++ (w ++ v)) :=
        parseTag_append u p.1 p.2 (w ++ v) hpt
      obtain ⟨v', hv'⟩ := regionFrom_head v B hv
      have hvfix : v.dropWhile Char.isWhitespace = v := by
        rw [hv']
        exact List.dropWhile_cons_of_neg (by decide)
      have hvne : v ≠ [] := by rw [hv']; simp
      obtain ⟨L, hL⟩ : ∃ L, (u ++ (w ++ v)).length = L + 1 := by
        refine ⟨(u ++ (w ++ v)).length - 1, ?_⟩
        simp only [List.length_append]
        omega
      have hgoal : regionFrom (u ++ (w ++ v)) =
          regionFromAux (L + 1) (u ++ (w ++ v)) := by
        unfold regionFrom
        rw [hL]
      rw [hgoal, regionFromAux_succ, hptz]
      simp only [Option.some_bind]
      by_cases hdw : p.2.dropWhile Char.isWhitespace = []
      · rw [if_pos hdw] at hA
        injection hA with hA
        have hallws : ∀ c ∈ p.2, Char.isWhitespace c = true :=
          List.dropWhile_eq_nil_iff.mp hdw
        have hcd : ((p.2 ++ (w ++ v)).dropWhile Char.isWhitespace) = v := by
          rw [dropWhile_append_all _ _ _ hallws, dropWhile_append_all _ _ _ hw,
            hvfix]
        rw [hcd, if_neg hvne]
        have hvL : v.length ≤ L := by
          simp only [List.length_append] at hL
          omega
        rw [regionFrom_eq_aux L v hvL, hv, Option.map_some']
        rw [← hA]
        rfl
      · rw [if_neg hdw] at hA
        cases haux : regionFromAux f (p.2.dropWhile Char.isWhitespace) with
        | none => rw [haux] at hA; cases hA
        | some more =>
          rw [haux, Option.map_some'] at hA
          injection hA with hA
          have hihlen : (p.2.dropWhile Char.isWhitespace).length ≤ f := by
            have h6 := parseTag_length u p.1 p.2 hpt
            have hdl := length_dropWhile_le Char.isWhitespace p.2
            omega
          have hIH := ih (p.2.dropWhile Char.isWhitespace) more hihlen haux
          have hcd : ((p.2 ++ (w ++ v)).dropWhile Char.isWhitespace)
              = p.2.dropWhile Char.isWhitespace ++ (w ++ v) :=
            dropWhile_append_ne_nil _ _ _ hdw
          have hne2 : p.2.dropWhile Char.isWhitespace ++ (w ++ v) ≠ [] := by
            intro hcontra
            exact hdw (List.append_eq_nil.mp hcontra).1
          rw [hcd, if_neg hne2]
          have hL2 : (p.2.dropWhile Char.isWhitespace ++ (w ++ v)).length ≤ L := by
            have h6 := parseTag_length u p.1 p.2 hpt
            have hdl := length_dropWhile_le Char.isWhitespace p.2
            simp only [List.length_append] at hL ⊢
            omega
          rw [regionFrom_eq_aux L _ hL2, hIH, Option.map_some']
          rw [← hA]
          rfl

/-- The user-facing form of the concatenation lemma. -/
theorem regionFrom_append (u w v : List Char) (A B : List (List Char))
    (hu : regionFrom u = some A) (hw : ∀ c ∈ w, Char.isWhitespace c = true)
    (hv : regionFrom v = some B) :
    regionFrom (u ++ (w ++ v)) = some (A ++ B) :=
  regionFrom_append_aux w v B hw hv u.length u A (le_refl _) hu


/-- The decomposition behind a successful `find_region`: the text
before the region, and a suffix that is a region. -/
theorem find_region_decomp (t : List Char) :
    ∀ front A, find_region t = some (front, A) →
      ∃ v, t = front ++ v ∧ regionFrom v = some A := by
  induction t with
  | nil => intro front A h; cases h
  | cons c rest ih =>
    intro front A h
    unfold find_region at h
    cases hr : regionFrom (c :: rest) with
    | some tags =>
      rw [hr] at h
      injection h with h
      rw [Prod.mk.injEq] at h
      obtain ⟨h1, h2⟩ := h
      exact ⟨c :: rest, by rw [← h1]; rfl, by rw [← h2]; exact hr⟩
    | none =>
      rw [hr] at h
      cases hfr : find_region rest with
      | none => rw [hfr] at h; cases h
      | some pa =>
        rw [hfr] at h
        simp only [Option.map_some'] at h
        injection h with h
        rw [Prod.mk.injEq] at h
        obtain ⟨h1, h2⟩ := h
        obtain ⟨v, hv1, hv2⟩ := ih pa.1 pa.2 (by rw [hfr])
        refine ⟨v, ?_, by rw [← h2]; exact hv2⟩
        rw [← h1, List.cons_append, ← hv1]

/-- Splitting off the trailing whitespace: a string is its trimmed
front plus whitespace. -/
theorem trimEnd_decomp (p : List Char) :
    ∃ w, p = trimEnd p ++ w ∧ ∀ c ∈ w, Char.isWhitespace c = true := by
  refine ⟨(p.reverse.takeWhile Char.isWhitespace).reverse, ?_, ?_⟩
  · show p = (p.reverse.dropWhile Char.isWhitespace).reverse ++
      (p.reverse.takeWhile Char.isWhitespace).reverse
    rw [← List.reverse_append, List.takeWhile_append_dropWhile, List.reverse_reverse]
  · intro c hc
    rw [List.mem_reverse] at hc
    exact List.mem_takeWhile_imp hc

/-- Trimming commutes with a cons whose tail trims non-empty. -/
theorem trimEnd_cons_ne_nil (c : Char) (p : List Char) (h : trimEnd p ≠ []) :
    trimEnd (c :: p) = c :: trimEnd p := by
  have hd : p.reverse.dropWhile Char.isWhitespace ≠ [] := by
    intro hh
    apply h
    show (p.reverse.dropWhile Char.isWhitespace).reverse = []
    rw [hh]
    rfl
  show ((c :: p).reverse.dropWhile Char.isWhitespace).reverse = c :: trimEnd p
  rw [List.reverse_cons, dropWhile_append_ne_nil _ _ _ hd, List.reverse_append]
  rfl

/-- A string that trims to nothing is all whitespace. -/
theorem trimEnd_eq_nil_ws (p : List Char) (h : trimEnd p = []) :
    ∀ c ∈ p, Char.isWhitespace c = true := by
  have hd : p.reverse.dropWhile Char.isWhitespace = [] := by
    have h2 := congrArg List.reverse h
    rwa [show (trimEnd p).reverse = p.reverse.dropWhile Char.isWhitespace from by
      show ((p.reverse.dropWhile Char.isWhitespace).reverse).reverse = _
      rw [List.reverse_reverse], List.reverse_nil] at h2
  intro c hc
  exact List.dropWhile_eq_nil_iff.mp hd c (List.mem_reverse.mpr hc)

/-- Consing whitespace onto an all-whitespace string trims to
nothing. -/
theorem trimEnd_cons_nil_ws (c : Char) (p : List Char) (h : trimEnd p = [])
    (hc : Char.isWhitespace c = true) : trimEnd (c :: p) = [] := by
  show ((c :: p).reverse.dropWhile Char.isWhitespace).reverse = []
  rw [List.reverse_cons, dropWhile_append_all _ _ _ fun x hx =>
    trimEnd_eq_nil_ws p h x (List.mem_reverse.mp hx),
    List.dropWhile_cons_of_pos hc]
  rfl

/-- Consing non-whitespace onto an all-whitespace string trims to the
single character. -/
theorem trimEnd_cons_nil_not_ws (c : Char) (p : List Char) (h : trimEnd p = [])
    (hc : Char.isWhitespace c = false) : trimEnd (c :: p) = [c] := by
  show ((c :: p).reverse.dropWhile Char.isWhitespace).reverse = [c]
  rw [List.reverse_cons, dropWhile_append_all _ _ _ fun x hx =>
    trimEnd_eq_nil_ws p h x (List.mem_reverse.mp hx),
    List.dropWhile_cons_of_neg (by simp [hc])]
  rfl

/-- One character is never a region (a tag needs six). -/
theorem regionFrom_single (c : Char) : regionFrom [c] = none := by
  show regionFromAux 1 [c] = none
  rw [regionFromAux_succ, parseTag_short [c] (by simp)]
  rfl

/-- One character holds no region anywhere. -/
theorem find_region_single (c : Char) : find_region [c] = none := by
  unfold find_region
  rw [regionFrom_single]
  rfl

/-- A title with no region strips to itself. -/
theorem remove_of_find_region_none (t : List Char)
    (h : find_region t = none) : remove_modifiers_from_title t = t := by
  unfold remove_modifiers_from_title
  rw [h]

/-- The key fact for C10: a stripped title holds no tag region at any
position — if it did, that region, the trimmed whitespace and the
removed region together would form a region starting further left
than the leftmost one. -/
theorem find_region_remove_none (s : List Char) :
    find_region (remove_modifiers_from_title s) = none := by
  induction s with
  | nil => rfl
  | cons c rest ih =>
    cases hr : regionFrom (c :: rest) with
    | some tags =>
      have hfc : find_region (c :: rest) = some ([], tags) := by
        unfold find_region
        rw [hr]
      unfold remove_modifiers_from_title
      rw [hfc]
      rfl
    | none =>
      cases hfr : find_region rest with
      | none =>
        have hfc : find_region (c :: rest) = none := by
          unfold find_region
          rw [hr, hfr]
          rfl
        unfold remove_modifiers_from_title
        rw [hfc]
        exact hfc
      | some pa =>
        have hfc : find_region (c :: rest) = some (c :: pa.1, pa.2) := by
          unfold find_region
          rw [hr, hfr]
          rfl
        unfold remove_modifiers_from_title at ih ⊢
        rw [hfc]
        rw [hfr] at ih
        have ih2 : find_region (trimEnd pa.1) = none := ih
        show find_region (trimEnd (c :: pa.1)) = none
        by_cases htp : trimEnd pa.1 = []
        · by_cases hcw : Char.isWhitespace c = true
          · rw [trimEnd_cons_nil_ws c pa.1 htp hcw]
            rfl
          · rw [trimEnd_cons_nil_not_ws c pa.1 htp
              (Bool.not_eq_true _ ▸ hcw)]
            exact find_region_single c
        · rw [trimEnd_cons_ne_nil c pa.1 htp]
          have hreg : regionFrom (c :: trimEnd pa.1) = none := by
            cases hcr : regionFrom (c :: trimEnd pa.1) with
            | none => rfl
            | some C =>
              exfalso
              obtain ⟨v, hv1, hv2⟩ :=
                find_region_decomp rest pa.1 pa.2 (by rw [hfr])
              obtain ⟨w, hw1, hw2⟩ := trimEnd_decomp pa.1
              have hcat : regionFrom ((c :: trimEnd pa.1) ++ (w ++ v)) =
                  some (C ++ pa.2) :=
                regionFrom_append _ _ _ _ _ hcr hw2 hv2
              have heq : (c :: trimEnd pa.1) ++ (w ++ v) = c :: rest := by
                rw [List.cons_append]
                congr 1
                rw [hv1]
                conv_rhs => rw [hw1]
                rw [List.append_assoc]
              rw [heq, hr] at hcat
              cases hcat
          unfold find_region
          rw [hreg, ih2]
          rfl

/-- C10: stripping the trailing modifier region removes every trailing
modifier — the stripped title parses to an empty modifier list — and
`remove_modifiers_from_title` is therefore idempotent. -/
theorem C10_strip_removes_all_modifiers (title : List Char) :
    modifiers_from_title (remove_modifiers_from_title title) = [] ∧
    remove_modifiers_from_title (remove_modifiers_from_title title) =
      remove_modifiers_from_title title := by
  have key := find_region_remove_none title
  constructor
  · unfold modifiers_from_title
    rw [key]
  · exact remove_of_find_region_none _ key

end Wavebreaker
